import Mathlib

/- Shallow embedding of the matrix-expression engine of SimuladorMatriz:
   src/types.ts (Matrix entity), src/utils/matrixMath.ts (algebra primitives
   and generic operand dispatch) and src/utils/expressionParser.ts
   (tokenizer, shunting-yard parser, RPN evaluator and variable resolver).

   Modelling conventions:
   * JS numbers are modelled as exact rationals. `parseFloat(x.toFixed(4))`
     is modelled as decimal rounding to 4 places.
   * `crypto.randomUUID()` is modelled by a counter threaded through every
     primitive; `evaluateExpression` starts the counter above every input
     id, which captures the only property the code relies on: freshness.
   * A JS `Record<string, Matrix>` is modelled as an insertion-ordered
     association list with an overwriting insert.
   * Template-string interpolation of a number is modelled with `toString`;
     no theorem below depends on the numeral text.
   * An out-of-range JS index read yields `undefined`; it is modelled by
     the default value 0. Every theorem touching cell reads assumes the
     shape invariant, under which no out-of-range read occurs. -/

deriving instance DecidableEq for Except

namespace Sim

/-- src/types.ts: the Matrix entity. `id` is an opaque unique identifier
(a UUID string in the source, a natural number here). -/
structure Matrix where
  id : Nat
  name : String
  rows : Nat
  cols : Nat
  data : List (List ℚ)
  steps : Option (List String) := none
deriving DecidableEq, Inhabited, Repr

/-- src/types.ts: the OperationType enum. -/
inductive OperationType
  | ADD
  | SUBTRACT
  | MULTIPLY
  | SCALAR_ADD
  | SCALAR_SUB
  | SCALAR_MUL
  | TRANSPOSE
  | POWER
  | EXPRESSION
deriving DecidableEq, Repr

/-- The error taxonomy, one constructor per distinct failure kind. Each
constructor corresponds to an exact throw site in expressionParser.ts or
matrixMath.ts; `scalarMatrixAdditionUnsupported` covers the two sibling
throw sites of genericAdd and genericSubtract (one failure kind), and
`dimensionMismatch` carries the four dimension numbers interpolated in the
source message. -/
inductive EvalError
  | emptyExpression
  | unknownVariable (name : String)
  | transposeRequiresMatrix
  | missingOperand
  | powerOperandType
  | unknownOperator (op : String)
  | malformedExpression
  | finalResultMustBeMatrix
  | scalarMatrixAdditionUnsupported
  | dimensionMismatch (r1 c1 r2 c2 : Nat)
  | powerRequiresSquare (name : String)
  | invalidExponent
deriving DecidableEq, Repr

/-- The evaluator's stack value: `Matrix | number`. -/
inductive Operand
  | mat (m : Matrix)
  | num (q : ℚ)
deriving DecidableEq, Repr

/-- Decimal rounding to 4 places: models `parseFloat(x.toFixed(4))`. -/
def round4 (q : ℚ) : ℚ := ((round (q * 10000) : ℤ) : ℚ) / 10000

/-- `${v}` numeral interpolation (abstract rendering; no theorem depends
on the numeral text). -/
def ratStr (q : ℚ) : String := toString q

/-- The step formatter `val < 0 ? "(" + val + ")" : val`. -/
def parenFmt (q : ℚ) : String := if q < 0 then "(" ++ ratStr q ++ ")" else ratStr q

/-- JS `d[i][j]`; an out-of-range read is modelled by 0 (see header). -/
def getCell (d : List (List ℚ)) (i j : Nat) : ℚ := (d.getD i []).getD j 0

/-- matrixMath.ts `addMatrices`: elementwise sum of equally sized
matrices. The source's double loop fills every cell of a rows×cols grid
created by createEmptyMatrix; that is rendered as a direct range-map
construction. -/
def addMatrices (matrices : List Matrix) (fresh : Nat) : Matrix × Nat :=
  let rows := (matrices.headD default).rows
  let cols := (matrices.headD default).cols
  let cell := fun i j => matrices.foldl (fun s m => s + getCell m.data i j) 0
  let resultData := (List.range rows).map (fun i => (List.range cols).map (fun j => cell i j))
  let cellSteps := (List.range rows).map (fun i => (List.range cols).map (fun j =>
    "c" ++ toString (i + 1) ++ toString (j + 1) ++ " = " ++
      String.intercalate " + " (matrices.map (fun m => parenFmt (getCell m.data i j))) ++
      " = " ++ ratStr (cell i j)))
  let name := if matrices.length ≤ 3
    then "(" ++ String.intercalate " + " (matrices.map (·.name)) ++ ")"
    else "Suma Total"
  (⟨fresh, name, rows, cols, resultData,
    some ("Sumando elementos en la misma posición:" :: cellSteps.flatten)⟩, fresh + 1)

/-- matrixMath.ts `subtractMatrices`: sequential left-to-right subtraction. -/
def subtractMatrices (matrices : List Matrix) (fresh : Nat) : Matrix × Nat :=
  let rows := (matrices.headD default).rows
  let cols := (matrices.headD default).cols
  let cell := fun i j =>
    matrices.tail.foldl (fun v m => v - getCell m.data i j)
      (getCell (matrices.headD default).data i j)
  let resultData := (List.range rows).map (fun i => (List.range cols).map (fun j => cell i j))
  let cellSteps := (List.range rows).map (fun i => (List.range cols).map (fun j =>
    "c" ++ toString (i + 1) ++ toString (j + 1) ++ " = " ++
      String.intercalate " - " (matrices.map (fun m => parenFmt (getCell m.data i j))) ++
      " = " ++ ratStr (cell i j)))
  let name := if matrices.length ≤ 3
    then "(" ++ String.intercalate " - " (matrices.map (·.name)) ++ ")"
    else "Resta Secuencial"
  (⟨fresh, name, rows, cols, resultData,
    some ("Restando secuencialmente elementos en la misma posición:" :: cellSteps.flatten)⟩,
   fresh + 1)

/-- matrixMath.ts `multiplyTwoMatrices`: row-by-column product; each cell
is rounded to 4 decimal places immediately after the summation. -/
def multiplyTwoMatrices (A B : Matrix) (fresh : Nat) : Matrix × Nat :=
  let cellSum := fun i j =>
    (List.range A.cols).foldl (fun s k => s + getCell A.data i k * getCell B.data k j) 0
  let resultData := (List.range A.rows).map (fun i =>
    (List.range B.cols).map (fun j => round4 (cellSum i j)))
  let cellSteps := (List.range A.rows).map (fun i => (List.range B.cols).map (fun j =>
    "c" ++ toString (i + 1) ++ toString (j + 1) ++ " = " ++
      String.intercalate " + " ((List.range A.cols).map (fun k =>
        "(" ++ ratStr (getCell A.data i k) ++ " · " ++ ratStr (getCell B.data k j) ++ ")")) ++
      " = " ++ ratStr (round4 (cellSum i j))))
  (⟨fresh, "(" ++ A.name ++ " · " ++ B.name ++ ")", A.rows, B.cols, resultData,
    some (("Producto fila por columna (" ++ A.name ++ " x " ++ B.name ++ "):")
      :: cellSteps.flatten)⟩, fresh + 1)

/-- matrixMath.ts `transposeMatrix`: `result[j][i] = data[i][j]`, dimensions
swap, no rounding. -/
def transposeMatrix (matrix : Matrix) (fresh : Nat) : Matrix × Nat :=
  let resultData := (List.range matrix.cols).map (fun j =>
    (List.range matrix.rows).map (fun i => getCell matrix.data i j))
  let cellSteps := (List.range matrix.rows).map (fun i => (List.range matrix.cols).map (fun j =>
    "c" ++ toString (j + 1) ++ toString (i + 1) ++ " toma el valor de a" ++
      toString (i + 1) ++ toString (j + 1) ++ " (" ++ ratStr (getCell matrix.data i j) ++ ")"))
  (⟨fresh, matrix.name ++ "ᵀ", matrix.cols, matrix.rows, resultData,
    some ("Intercambiando filas por columnas:" :: cellSteps.flatten)⟩, fresh + 1)

/-- The `for (let i = 1; i < exponent; i++)` loop of matrixMath.ts
`powerMatrix`: `count` is the number of remaining iterations, `i` the
1-based loop counter used in the step header. -/
def powerLoop (base : Matrix) : Nat → Nat → Matrix → List String → Nat →
    Matrix × List String × Nat
  | 0, _, result, steps, fresh => (result, steps, fresh)
  | count + 1, i, result, steps, fresh =>
    let r := multiplyTwoMatrices result base fresh
    powerLoop base count (i + 1) r.1
      (steps ++ ("--- Potencia " ++ toString (i + 1) ++ " ---") :: (r.1.steps.getD [])) r.2

/-- matrixMath.ts `powerMatrix`: requires a square base and an integer
exponent ≥ 1; repeated sequential multiplication by the original matrix. -/
def powerMatrix (matrix : Matrix) (exponent : ℚ) (fresh : Nat) :
    Except EvalError (Matrix × Nat) :=
  if matrix.rows ≠ matrix.cols then .error (.powerRequiresSquare matrix.name)
  else if exponent.den ≠ 1 ∨ exponent < 1 then .error .invalidExponent
  else if exponent = 1 then
    let one : Matrix :=
      { matrix with
        id := fresh
        name := matrix.name ++ "^1"
        steps := some ["Potencia 1 es la misma matriz."] }
    .ok (one, fresh + 1)
  else
    let r := powerLoop matrix (exponent.num.toNat - 1) 1 matrix [] fresh
    let fin : Matrix :=
      { r.1 with
        name := matrix.name ++ "^" ++ ratStr exponent
        id := r.2.2
        steps := some r.2.1 }
    .ok (fin, r.2.2 + 1)

/-- matrixMath.ts `scalarOperation`: elementwise combination with a scalar,
each cell rounded to 4 decimal places. -/
def scalarOperation (matrix : Matrix) (scalar : ℚ) (type : OperationType) (fresh : Nat) :
    Matrix × Nat :=
  let app := fun (val : ℚ) =>
    match type with
    | .SCALAR_ADD => val + scalar
    | .SCALAR_SUB => val - scalar
    | .SCALAR_MUL => val * scalar
    | _ => val
  let opSymbol :=
    match type with
    | .SCALAR_ADD => "+"
    | .SCALAR_SUB => "-"
    | .SCALAR_MUL => "·"
    | _ => ""
  let resultData := matrix.data.map (fun row => row.map (fun val => round4 (app val)))
  let cellSteps := matrix.data.enum.map (fun p => p.2.enum.map (fun q =>
    "c" ++ toString (p.1 + 1) ++ toString (q.1 + 1) ++ " = " ++ ratStr q.2 ++ " " ++
      opSymbol ++ " " ++ ratStr scalar ++ " = " ++ ratStr (round4 (app q.2))))
  (⟨fresh, ratStr scalar ++ "(" ++ matrix.name ++ ")", matrix.rows, matrix.cols, resultData,
    some (("Aplicando escalar (" ++ ratStr scalar ++ ") a cada elemento:")
      :: cellSteps.flatten)⟩, fresh + 1)

/-- matrixMath.ts `genericMultiply`: scalar×scalar, scalar×matrix (either
order, elementwise scalar multiplication) or matrix×matrix (inner
dimensions must agree). -/
def genericMultiply (a b : Operand) (fresh : Nat) : Except EvalError (Operand × Nat) :=
  match a, b with
  | .num x, .num y => .ok (.num (x * y), fresh)
  | .num x, .mat mB =>
    let r := scalarOperation mB x .SCALAR_MUL fresh
    .ok (.mat r.1, r.2)
  | .mat mA, .num y =>
    let r := scalarOperation mA y .SCALAR_MUL fresh
    .ok (.mat r.1, r.2)
  | .mat mA, .mat mB =>
    if mA.cols ≠ mB.rows then .error (.dimensionMismatch mA.rows mA.cols mB.rows mB.cols)
    else
      let r := multiplyTwoMatrices mA mB fresh
      .ok (.mat r.1, r.2)

/-- matrixMath.ts `genericAdd`: scalar+scalar is arithmetic; a scalar mixed
with a matrix is rejected; matrix+matrix requires equal dimensions. -/
def genericAdd (a b : Operand) (fresh : Nat) : Except EvalError (Operand × Nat) :=
  match a, b with
  | .num x, .num y => .ok (.num (x + y), fresh)
  | .mat mA, .mat mB =>
    if mA.rows ≠ mB.rows ∨ mA.cols ≠ mB.cols then
      .error (.dimensionMismatch mA.rows mA.cols mB.rows mB.cols)
    else
      let r := addMatrices [mA, mB] fresh
      .ok (.mat r.1, r.2)
  | _, _ => .error .scalarMatrixAdditionUnsupported

/-- matrixMath.ts `genericSubtract`: mirrors `genericAdd` with sequential
subtraction. -/
def genericSubtract (a b : Operand) (fresh : Nat) : Except EvalError (Operand × Nat) :=
  match a, b with
  | .num x, .num y => .ok (.num (x - y), fresh)
  | .mat mA, .mat mB =>
    if mA.rows ≠ mB.rows ∨ mA.cols ≠ mB.cols then
      .error (.dimensionMismatch mA.rows mA.cols mB.rows mB.cols)
    else
      let r := subtractMatrices [mA, mB] fresh
      .ok (.mat r.1, r.2)
  | _, _ => .error .scalarMatrixAdditionUnsupported

/-- JS `String.prototype.trim`: strip whitespace from both ends (ASCII
whitespace; JS also strips rarer Unicode spaces, which never appear
here). Implemented over the character list so that it evaluates inside
the kernel. -/
def jsTrim (s : String) : String :=
  String.mk (((s.data.dropWhile Char.isWhitespace).reverse.dropWhile
    Char.isWhitespace).reverse)

/-- JS `String.prototype.toUpperCase` (ASCII letters; the only letters
the engine compares). -/
def jsToUpper (s : String) : String := String.mk (s.data.map Char.toUpper)

/-- JS `s.startsWith(p)`. -/
def jsStartsWith (s p : String) : Bool := p.data.isPrefixOf s.data

/-- JS `s.substring(n)`. -/
def jsDrop (s : String) (n : Nat) : String := String.mk (s.data.drop n)

/-- The transpose operator character (written via its code point to keep
the source free of quote-literal pitfalls). -/
def quoteChar : Char := Char.ofNat 39

/-- The transpose operator as a one-character lexeme. -/
def quoteStr : String := String.mk [quoteChar]

/-- expressionParser.ts: token kinds (`COMMA` is declared in the source's
Token type but never produced by the tokenizer, which emits a comma as an
`OPERATOR`). -/
inductive TokenType
  | NUMBER
  | IDENTIFIER
  | OPERATOR
  | LPAREN
  | RPAREN
  | COMMA
deriving DecidableEq, Repr

/-- expressionParser.ts: a lexed token. -/
structure Token where
  type : TokenType
  value : String
deriving DecidableEq, Repr

/-- The single-character operator class of the tokenizer regex
`['+\-*/^(),]`. -/
def isOpChar (c : Char) : Bool :=
  c == quoteChar || c == '+' || c == '-' || c == '*' || c == '/' || c == '^' ||
  c == '(' || c == ')' || c == ','

/-- Lexes the regex alternative `[0-9]+(\.[0-9]+)?` from the head of the
character list (the head is known to be a digit), returning the lexeme and
the rest of the input. -/
def numLex (cs : List Char) : String × List Char :=
  let ds := cs.takeWhile Char.isDigit
  let r1 := cs.dropWhile Char.isDigit
  match r1 with
  | p :: d :: r2 =>
    if p = '.' ∧ d.isDigit then
      (String.mk (ds ++ '.' :: (d :: r2).takeWhile Char.isDigit),
       (d :: r2).dropWhile Char.isDigit)
    else (String.mk ds, r1)
  | _ => (String.mk ds, r1)

/-- expressionParser.ts `tokenize`, as a scan over the character list. The
source drives a global regex whose alternatives are: a decimal numeral, a
letter run, a single-character operator or parenthesis, and whitespace;
any character matching no alternative is silently skipped, as is
whitespace. Every step consumes at least one character, so with `fuel`
initialised to the input length (see `tokenize`) the fuel never runs out
and the scan is exact. -/
def tokenizeAux : Nat → List Char → List Token
  | 0, _ => []
  | _, [] => []
  | fuel + 1, c :: rest =>
    if c.isDigit then
      ⟨.NUMBER, (numLex (c :: rest)).1⟩ :: tokenizeAux fuel (numLex (c :: rest)).2
    else if c.isAlpha then
      ⟨.IDENTIFIER, String.mk ((c :: rest).takeWhile Char.isAlpha)⟩ ::
        tokenizeAux fuel ((c :: rest).dropWhile Char.isAlpha)
    else if c = '(' then ⟨.LPAREN, "("⟩ :: tokenizeAux fuel rest
    else if c = ')' then ⟨.RPAREN, ")"⟩ :: tokenizeAux fuel rest
    else if isOpChar c then ⟨.OPERATOR, String.mk [c]⟩ :: tokenizeAux fuel rest
    else tokenizeAux fuel rest

def tokenize (expr : String) : List Token := tokenizeAux expr.data.length expr.data

/-- expressionParser.ts `toRPN`: the precedence table. A symbol outside
the table has JS value `undefined`, modelled as `none`. -/
def precedence (v : String) : Option Nat :=
  if v = "+" then some 1
  else if v = "-" then some 1
  else if v = "*" then some 2
  else if v = "/" then some 2
  else if v = "^" then some 3
  else if v = quoteStr then some 4
  else none

/-- JS `x >= y` where either side may be `undefined`: any comparison
involving `undefined` is false. -/
def precGE : Option Nat → Option Nat → Bool
  | some x, some y => decide (y ≤ x)
  | _, _ => false

/-- The inner while-loop of `toRPN` for an incoming operator token `t`:
pop operators of greater-or-equal precedence to the output queue — unless
`t` is the caret, which never pops. Returns (stack, output). -/
def rpnOpLoop (t : Token) : List Token → List Token → List Token × List Token
  | [], out => ([], out)
  | s :: ss, out =>
    if s.type = .OPERATOR ∧ precGE (precedence s.value) (precedence t.value) ∧
        t.value ≠ "^" then
      rpnOpLoop t ss (out ++ [s])
    else (s :: ss, out)

/-- The while-loop of `toRPN` for a right parenthesis: pop to the output
queue until a left parenthesis (or an empty stack). -/
def rpnParenLoop : List Token → List Token → List Token × List Token
  | [], out => ([], out)
  | s :: ss, out =>
    if s.type ≠ .LPAREN then rpnParenLoop ss (out ++ [s]) else (s :: ss, out)

/-- expressionParser.ts `toRPN`: the shunting-yard token scan. The
operator stack grows at the head; at end of input the remaining stack
(left parentheses included) is appended to the output queue. -/
def toRPNAux : List Token → List Token → List Token → List Token
  | [], stack, out => out ++ stack
  | t :: ts, stack, out =>
    match t.type with
    | .NUMBER => toRPNAux ts stack (out ++ [t])
    | .IDENTIFIER => toRPNAux ts stack (out ++ [t])
    | .OPERATOR =>
      let p := rpnOpLoop t stack out
      toRPNAux ts (t :: p.1) p.2
    | .LPAREN => toRPNAux ts (t :: stack) out
    | .RPAREN =>
      let p := rpnParenLoop stack out
      toRPNAux ts p.1.tail p.2
    | .COMMA => toRPNAux ts stack out

def toRPN (tokens : List Token) : List Token := toRPNAux tokens [] []

/-- JS object insertion with string keys: overwrite in place if the key is
present, else append (insertion order preserved, as `Object.values`
relies on). -/
def mapInsert (m : List (String × Matrix)) (k : String) (v : Matrix) :
    List (String × Matrix) :=
  if m.any (fun p => p.1 == k) then m.map (fun p => if p.1 == k then (k, v) else p)
  else m ++ [(k, v)]

/-- JS object key lookup. -/
def mapLookup (m : List (String × Matrix)) (k : String) : Option Matrix :=
  (m.find? (fun p => p.1 == k)).map (·.2)

/-- evaluateExpression, map construction step 1: register a matrix under
its uppercased full name. -/
def registerName (acc : List (String × Matrix)) (m : Matrix) : List (String × Matrix) :=
  mapInsert acc (jsToUpper m.name) m

/-- evaluateExpression, map construction step 2: if the uppercased name
starts with "MATRIZ ", also register the matrix under the trimmed,
uppercased remainder — when that remainder is nonempty (JS truthiness of
`shortName`). -/
def registerAlias (acc : List (String × Matrix)) (m : Matrix) : List (String × Matrix) :=
  if jsStartsWith (jsToUpper m.name) "MATRIZ " then
    let shortName := jsToUpper (jsTrim (jsDrop m.name 7))
    if shortName ≠ "" then mapInsert acc shortName m else acc
  else acc

/-- `String.fromCharCode(65 + idx)`. -/
def indexLetter (idx : Nat) : String := String.mk [Char.ofNat (65 + idx)]

/-- evaluateExpression, map construction step 3: register under the
positional letter only if that key is still absent. -/
def registerLetter (acc : List (String × Matrix)) (m : Matrix) (idx : Nat) :
    List (String × Matrix) :=
  if (mapLookup acc (indexLetter idx)).isNone then mapInsert acc (indexLetter idx) m
  else acc

/-- The body of the `availableMatrices.forEach((m, idx) => ...)` loop. -/
def registerMatrix (acc : List (String × Matrix)) (p : Nat × Matrix) :
    List (String × Matrix) :=
  registerLetter (registerAlias (registerName acc p.2) p.2) p.2 p.1

/-- evaluateExpression: the full name→matrix map over the input list. -/
def buildMatrixMap (ms : List Matrix) : List (String × Matrix) :=
  ms.enum.foldl registerMatrix []

def parseNatDigits (cs : List Char) : Nat :=
  cs.foldl (fun a c => a * 10 + (c.toNat - 48)) 0

/-- `parseFloat` on a lexeme of shape `digits[.digits]`, modelled as the
exact decimal value (see the header note on floats). -/
def parseNum (s : String) : ℚ :=
  let w := s.data.takeWhile (fun c => c ≠ '.')
  match s.data.dropWhile (fun c => c ≠ '.') with
  | _ :: fs => (parseNatDigits w : ℚ) + (parseNatDigits fs : ℚ) / (10 : ℚ) ^ fs.length
  | [] => (parseNatDigits w : ℚ)

/-- `Object.values(matrixMap).some(m => m.id === val.id)`. -/
def isInputId (map : List (String × Matrix)) (m : Matrix) : Bool :=
  map.any (fun p => p.2.id == m.id)

/-- evaluateExpression `pushResult`: push the value; a matrix whose id is
not among the registered input matrices is also appended to the trace. -/
def pushResult (map : List (String × Matrix)) (val : Operand)
    (stack : List Operand) (trace : List Matrix) : List Operand × List Matrix :=
  match val with
  | .mat m => (val :: stack, if isInputId map m then trace else trace ++ [m])
  | .num _ => (val :: stack, trace)

/-- The operator switch of the evaluator for the binary operators, with
the popped operands `a` (left) and `b` (right). -/
def applyBinary (op : String) (a b : Operand) (fresh : Nat) :
    Except EvalError (Operand × Nat) :=
  if op = "+" then genericAdd a b fresh
  else if op = "-" then genericSubtract a b fresh
  else if op = "*" then genericMultiply a b fresh
  else if op = "^" then
    match a, b with
    | .mat m, .num q => (powerMatrix m q fresh).map (fun r => (.mat r.1, r.2))
    | _, _ => .error .powerOperandType
  else .error (.unknownOperator op)

/-- evaluateExpression: the `for (const token of rpn)` loop. Note the
source's transpose guard `if (!a || typeof a === 'number')`: an undefined
pop from an empty stack raises the same transpose error as a scalar
operand. A parenthesis or comma token in the RPN stream matches no branch
of the source's if/else chain and is skipped. -/
def evalRPN (map : List (String × Matrix)) :
    List Token → List Operand → List Matrix → Nat →
    Except EvalError (List Operand × List Matrix × Nat)
  | [], stack, trace, fresh => .ok (stack, trace, fresh)
  | t :: ts, stack, trace, fresh =>
    match t.type with
    | .NUMBER => evalRPN map ts (.num (parseNum t.value) :: stack) trace fresh
    | .IDENTIFIER =>
      match mapLookup map (jsToUpper t.value) with
      | none => .error (.unknownVariable t.value)
      | some m => evalRPN map ts (.mat m :: stack) trace fresh
    | .OPERATOR =>
      if t.value = quoteStr then
        match stack with
        | .mat a :: rest =>
          let r := transposeMatrix a fresh
          let st := pushResult map (.mat r.1) rest trace
          evalRPN map ts st.1 st.2 r.2
        | _ => .error .transposeRequiresMatrix
      else
        match stack with
        | b :: a :: rest =>
          match applyBinary t.value a b fresh with
          | .error e => .error e
          | .ok r =>
            let st := pushResult map r.1 rest trace
            evalRPN map ts st.1 st.2 r.2
        | _ => .error .missingOperand
    | .LPAREN => evalRPN map ts stack trace fresh
    | .RPAREN => evalRPN map ts stack trace fresh
    | .COMMA => evalRPN map ts stack trace fresh

/-- The id counter start: strictly above every input id (models the
freshness of `crypto.randomUUID()`). -/
def freshStart (ms : List Matrix) : Nat := (ms.map (·.id)).foldl max 0 + 1

/-- expressionParser.ts `evaluateExpression`: the engine's entry point.
Returns the execution trace (the source's `executionTrace`). -/
def evaluateExpression (expression : String) (availableMatrices : List Matrix) :
    Except EvalError (List Matrix) :=
  if jsTrim expression = "" then .error .emptyExpression
  else
    let map := buildMatrixMap availableMatrices
    let rpn := toRPN (tokenize expression)
    match evalRPN map rpn [] [] (freshStart availableMatrices) with
    | .error e => .error e
    | .ok (stack, trace, _) =>
      match stack with
      | [.num _] => .error .finalResultMustBeMatrix
      | [.mat _] => .ok trace
      | _ => .error .malformedExpression

/-! Helper lemmas about the association-list model of the JS object. -/

theorem find?_replace_ne (k k2 : String) (v : Matrix) (h : k2 ≠ k) :
    ∀ acc : List (String × Matrix),
      (acc.map (fun p => if p.1 == k then (k, v) else p)).find? (fun p => p.1 == k2) =
        acc.find? (fun p => p.1 == k2) := by
  intro acc
  induction acc with
  | nil => rfl
  | cons p t ih =>
    by_cases hp : p.1 = k
    · simp only [List.map_cons, List.find?_cons, hp, beq_self_eq_true, if_pos]
      have h1 : (k == k2) = false := by simp [Ne.symm h]
      have h2 : (p.1 == k2) = false := by simp [hp, Ne.symm h]
      simp only [h1, h2, ih]
    · have h2 : (p.1 == k) = false := by simp [hp]
      simp only [List.map_cons, List.find?_cons, h2, if_neg, Bool.false_eq_true,
        not_false_iff, ih]

theorem mapLookup_mapInsert_self (acc : List (String × Matrix)) (k : String) (v : Matrix) :
    mapLookup (mapInsert acc k v) k = some v := by
  unfold mapInsert
  by_cases hany : acc.any (fun p => p.1 == k)
  · simp only [hany, if_pos]
    induction acc with
    | nil => simp at hany
    | cons p t ih =>
      by_cases hp : p.1 = k
      · simp [mapLookup, List.find?_cons, hp]
      · have h2 : (p.1 == k) = false := by simp [hp]
        have hany2 : t.any (fun p => p.1 == k) := by
          simp only [List.any_cons, h2, Bool.false_or] at hany
          exact hany
        simp only [List.map_cons, h2, if_neg, Bool.false_eq_true, not_false_iff]
        simp only [mapLookup, List.find?_cons, h2] at ih ⊢
        exact ih hany2
  · simp only [hany, if_neg, Bool.false_eq_true, not_false_iff]
    induction acc with
    | nil => simp [mapLookup]
    | cons p t ih =>
      have h2 : (p.1 == k) = false := by
        by_contra hc
        simp only [Bool.not_eq_false, beq_iff_eq] at hc
        simp [List.any_cons, hc] at hany
      have hany2 : ¬ t.any (fun p => p.1 == k) := by
        simp only [List.any_cons, h2, Bool.false_or] at hany
        simp [hany]
      simp only [List.cons_append, mapLookup, List.find?_cons, h2] at ih ⊢
      exact ih hany2

theorem mapLookup_mapInsert_ne (acc : List (String × Matrix)) (k k2 : String) (v : Matrix)
    (h : k2 ≠ k) : mapLookup (mapInsert acc k v) k2 = mapLookup acc k2 := by
  unfold mapInsert
  by_cases hany : acc.any (fun p => p.1 == k)
  · simp only [hany, if_pos, mapLookup, find?_replace_ne k k2 v h acc]
  · simp only [hany, if_neg, Bool.false_eq_true, not_false_iff, mapLookup]
    induction acc with
    | nil => simp [Ne.symm h]
    | cons p t ih =>
      have hany2 : ¬ t.any (fun p => p.1 == k) := by
        intro hc
        exact hany (by simp [List.any_cons, hc])
      by_cases hp : p.1 = k2
      · simp [List.find?_cons, hp]
      · have h2 : (p.1 == k2) = false := by simp [hp]
        simp only [List.cons_append, List.find?_cons, h2]
        exact ih hany2

theorem mapInsert_forall {P : Matrix → Prop} (acc : List (String × Matrix)) (k : String)
    (v : Matrix) (h : ∀ p ∈ acc, P p.2) (hv : P v) :
    ∀ p ∈ mapInsert acc k v, P p.2 := by
  intro p hp
  unfold mapInsert at hp
  by_cases hany : acc.any (fun q => q.1 == k)
  · simp only [hany, if_pos, List.mem_map] at hp
    obtain ⟨q, hq, hqe⟩ := hp
    by_cases hqk : q.1 == k
    · simp only [hqk, if_pos] at hqe
      rw [← hqe]
      exact hv
    · simp only [hqk, if_neg, Bool.false_eq_true, not_false_iff] at hqe
      rw [← hqe]
      exact h q hq
  · simp only [hany, if_neg, Bool.false_eq_true, not_false_iff, List.mem_append,
      List.mem_singleton] at hp
    cases hp with
    | inl hmem => exact h p hmem
    | inr he => rw [he]; exact hv

theorem registerName_forall {P : Matrix → Prop} (acc : List (String × Matrix)) (m : Matrix)
    (h : ∀ p ∈ acc, P p.2) (hm : P m) : ∀ p ∈ registerName acc m, P p.2 :=
  mapInsert_forall acc _ m h hm

theorem registerAlias_forall {P : Matrix → Prop} (acc : List (String × Matrix)) (m : Matrix)
    (h : ∀ p ∈ acc, P p.2) (hm : P m) : ∀ p ∈ registerAlias acc m, P p.2 := by
  unfold registerAlias
  split
  · dsimp only
    split
    · exact mapInsert_forall acc _ m h hm
    · exact h
  · exact h

theorem registerLetter_forall {P : Matrix → Prop} (acc : List (String × Matrix)) (m : Matrix)
    (idx : Nat) (h : ∀ p ∈ acc, P p.2) (hm : P m) : ∀ p ∈ registerLetter acc m idx, P p.2 := by
  unfold registerLetter
  split
  · exact mapInsert_forall acc _ m h hm
  · exact h

theorem registerMatrix_forall {P : Matrix → Prop} (acc : List (String × Matrix))
    (q : Nat × Matrix) (h : ∀ p ∈ acc, P p.2) (hm : P q.2) :
    ∀ p ∈ registerMatrix acc q, P p.2 :=
  registerLetter_forall _ _ _
    (registerAlias_forall _ _ (registerName_forall _ _ h hm) hm) hm

theorem foldl_registerMatrix_forall {P : Matrix → Prop} :
    ∀ (l : List (Nat × Matrix)) (acc : List (String × Matrix)),
      (∀ x ∈ l, P x.2) → (∀ p ∈ acc, P p.2) →
      ∀ p ∈ l.foldl registerMatrix acc, P p.2 := by
  intro l
  induction l with
  | nil => intro acc _ hacc; exact hacc
  | cons x t ih =>
    intro acc hl hacc
    exact ih (registerMatrix acc x) (fun y hy => hl y (List.mem_cons_of_mem x hy))
      (registerMatrix_forall acc x hacc (hl x (List.mem_cons_self x t)))

theorem buildMatrixMap_forall {P : Matrix → Prop} (ms : List Matrix)
    (hms : ∀ m ∈ ms, P m) : ∀ p ∈ buildMatrixMap ms, P p.2 := by
  have h0 : ∀ p ∈ ([] : List (String × Matrix)), P p.2 := by intro p hp; simp at hp
  have h1 : ∀ x ∈ ms.enum, P x.2 := fun x hx => hms x.2 (List.snd_mem_of_mem_enum hx)
  simpa [buildMatrixMap] using foldl_registerMatrix_forall ms.enum [] h1 h0

theorem mapLookup_mem (acc : List (String × Matrix)) (k : String) (v : Matrix)
    (h : mapLookup acc k = some v) : ∃ p ∈ acc, p.2 = v := by
  unfold mapLookup at h
  cases hf : acc.find? (fun p => p.1 == k) with
  | none =>
    rw [hf] at h
    exact absurd h (by simp)
  | some p =>
    rw [hf] at h
    refine ⟨p, List.mem_of_find?_eq_some hf, ?_⟩
    simpa using h

theorem buildMatrixMap_single_value (A : Matrix) : ∀ p ∈ buildMatrixMap [A], p.2 = A :=
  buildMatrixMap_forall [A] (by intro m hm; simpa using hm)

theorem mapLookup_buildMatrixMap_single (A : Matrix) :
    mapLookup (buildMatrixMap [A]) "A" = some A := by
  have hbuild : buildMatrixMap [A] = registerMatrix [] (0, A) := rfl
  rw [hbuild]
  have hvals : ∀ p ∈ registerAlias (registerName [] A) A, p.2 = A :=
    registerAlias_forall (P := fun x => x = A) _ _
      (registerName_forall (P := fun x => x = A) _ _ (by intro p hp; simp at hp) rfl) rfl
  show mapLookup (registerLetter (registerAlias (registerName [] A) A) A 0) "A" = some A
  unfold registerLetter
  have hletter : indexLetter 0 = "A" := by decide
  rw [hletter]
  cases hl : mapLookup (registerAlias (registerName [] A) A) "A" with
  | none =>
    simp only [hl, Option.isNone_none, if_pos]
    exact mapLookup_mapInsert_self _ "A" A
  | some x =>
    simp only [hl, Option.isNone_some, Bool.false_eq_true, if_neg, not_false_iff]
    obtain ⟨p, hp, hpv⟩ := mapLookup_mem _ "A" x hl
    exact congrArg some (hpv ▸ hvals p hp)

theorem freshStart_single (A : Matrix) : freshStart [A] = A.id + 1 := by
  simp [freshStart]

theorem isInputId_single_false (A m : Matrix) (h : A.id ≠ m.id) :
    isInputId (buildMatrixMap [A]) m = false := by
  unfold isInputId
  simp only [List.any_eq_false]
  intro p hp
  rw [buildMatrixMap_single_value A p hp]
  simp [h]

/-! Helper lemmas about range-indexed grids. -/

theorem map_range_getD {α : Type} (l : List α) (d : α) :
    (List.range l.length).map (fun i => l.getD i d) = l := by
  induction l with
  | nil => simp
  | cons a t ih =>
    rw [List.length_cons, List.range_succ_eq_map]
    simp only [List.map_cons, List.map_map, List.getD_cons_zero]
    have hfun : ((fun i => (a :: t).getD i d) ∘ Nat.succ) = fun i => t.getD i d := by
      funext i
      simp
    rw [hfun, ih]

theorem getD_map_range {α : Type} (f : Nat → α) (n i : Nat) (d : α) (h : i < n) :
    ((List.range n).map f).getD i d = f i := by
  rw [List.getD_eq_getElem _ _ (by simpa using h), List.getElem_map, List.getElem_range]

theorem range_grid_eq (d : List (List ℚ)) (cols : Nat)
    (h2 : ∀ row ∈ d, row.length = cols) :
    (List.range d.length).map (fun i => (List.range cols).map (fun j => getCell d i j)) = d := by
  have key : ∀ (i : Nat) (hi : i < d.length),
      (List.range cols).map (fun j => getCell d i j) = d[i] := by
    intro i hi
    have hrow : d[i] ∈ d := List.getElem_mem hi
    have hlen : d[i].length = cols := h2 _ hrow
    have hD : d.getD i [] = d[i] := List.getD_eq_getElem d [] hi
    calc (List.range cols).map (fun j => getCell d i j)
        = (List.range d[i].length).map (fun j => (d[i]).getD j 0) := by
          rw [hlen]
          apply List.map_congr_left
          intro j hj
          unfold getCell
          rw [hD]
      _ = d[i] := map_range_getD _ _
  apply List.ext_getElem
  · simp
  · intro i hi1 hi2
    rw [List.getElem_map, List.getElem_range]
    exact key i hi2

theorem transpose_transpose_data (A : Matrix) (f1 f2 : Nat)
    (h1 : A.data.length = A.rows) (h2 : ∀ row ∈ A.data, row.length = A.cols) :
    (transposeMatrix (transposeMatrix A f1).1 f2).1.data = A.data := by
  show (List.range A.rows).map (fun j2 => (List.range A.cols).map (fun i2 =>
    getCell (transposeMatrix A f1).1.data i2 j2)) = A.data
  have hcell : ∀ j2 < A.rows, ∀ i2 < A.cols,
      getCell (transposeMatrix A f1).1.data i2 j2 = getCell A.data j2 i2 := by
    intro j2 hj2 i2 hi2
    show getCell ((List.range A.cols).map (fun j => (List.range A.rows).map (fun i =>
      getCell A.data i j))) i2 j2 = getCell A.data j2 i2
    unfold getCell
    rw [getD_map_range _ _ _ _ hi2, getD_map_range _ _ _ _ hj2]
  have hmap : (List.range A.rows).map (fun j2 => (List.range A.cols).map (fun i2 =>
      getCell (transposeMatrix A f1).1.data i2 j2)) =
      (List.range A.rows).map (fun j2 => (List.range A.cols).map (fun i2 =>
      getCell A.data j2 i2)) := by
    apply List.map_congr_left
    intro j2 hj2
    apply List.map_congr_left
    intro i2 hi2
    exact hcell j2 (List.mem_range.mp hj2) i2 (List.mem_range.mp hi2)
  rw [hmap, ← h1]
  exact range_grid_eq A.data A.cols (by intro row hrow; exact h2 row hrow)

/-! Small-step lemmas for the RPN evaluator, used to walk concrete
expressions with a symbolic input matrix. -/

theorem evalRPN_identifier (map : List (String × Matrix)) (ts : List Token)
    (stack : List Operand) (trace : List Matrix) (fresh : Nat) (ident : String)
    (m : Matrix) (h : mapLookup map (jsToUpper ident) = some m) :
    evalRPN map (⟨.IDENTIFIER, ident⟩ :: ts) stack trace fresh =
      evalRPN map ts (.mat m :: stack) trace fresh := by
  simp only [evalRPN, h]

theorem evalRPN_transpose_step (map : List (String × Matrix)) (ts : List Token)
    (trace : List Matrix) (fresh : Nat) (a : Matrix) (rest : List Operand) :
    evalRPN map (⟨.OPERATOR, quoteStr⟩ :: ts) (.mat a :: rest) trace fresh =
      evalRPN map ts
        (pushResult map (.mat (transposeMatrix a fresh).1) rest trace).1
        (pushResult map (.mat (transposeMatrix a fresh).1) rest trace).2 (fresh + 1) := rfl

theorem evalRPN_binary_ok (map : List (String × Matrix)) (ts : List Token)
    (trace : List Matrix) (fresh : Nat) (op : String) (a b : Operand)
    (rest : List Operand) (r : Operand × Nat) (hop : ¬ (op = quoteStr))
    (h : applyBinary op a b fresh = .ok r) :
    evalRPN map (⟨.OPERATOR, op⟩ :: ts) (b :: a :: rest) trace fresh =
      evalRPN map ts (pushResult map r.1 rest trace).1
        (pushResult map r.1 rest trace).2 r.2 := by
  simp only [evalRPN, if_neg hop, h]

theorem evalRPN_number (map : List (String × Matrix)) (ts : List Token)
    (stack : List Operand) (trace : List Matrix) (fresh : Nat) (v : String) :
    evalRPN map (⟨.NUMBER, v⟩ :: ts) stack trace fresh =
      evalRPN map ts (.num (parseNum v) :: stack) trace fresh := rfl

theorem pushResult_not_input (map : List (String × Matrix)) (m : Matrix)
    (stack : List Operand) (trace : List Matrix) (h : isInputId map m = false) :
    pushResult map (.mat m) stack trace = (.mat m :: stack, trace ++ [m]) := by
  simp only [pushResult, h, Bool.false_eq_true, if_neg, not_false_iff]

/-! The claim theorems. -/

/-- C2: tokenizing `3*A'-B^2` yields the eight tokens
`[3, *, A, ', -, B, ^, 2]` with kinds Number, Operator, Identifier,
Operator, Operator, Identifier, Operator, Number; `toRPN` of that
sequence yields `[3, A, ', *, B, 2, ^, -]`; and an incoming `^` token
never pops any operator off the stack, whatever the stack holds. -/
theorem C2_tokenize_rpn_caret :
    tokenize ("3*A" ++ quoteStr ++ "-B^2") =
      [⟨.NUMBER, "3"⟩, ⟨.OPERATOR, "*"⟩, ⟨.IDENTIFIER, "A"⟩, ⟨.OPERATOR, quoteStr⟩,
       ⟨.OPERATOR, "-"⟩, ⟨.IDENTIFIER, "B"⟩, ⟨.OPERATOR, "^"⟩, ⟨.NUMBER, "2"⟩] ∧
    toRPN [⟨.NUMBER, "3"⟩, ⟨.OPERATOR, "*"⟩, ⟨.IDENTIFIER, "A"⟩, ⟨.OPERATOR, quoteStr⟩,
       ⟨.OPERATOR, "-"⟩, ⟨.IDENTIFIER, "B"⟩, ⟨.OPERATOR, "^"⟩, ⟨.NUMBER, "2"⟩] =
      [⟨.NUMBER, "3"⟩, ⟨.IDENTIFIER, "A"⟩, ⟨.OPERATOR, quoteStr⟩, ⟨.OPERATOR, "*"⟩,
       ⟨.IDENTIFIER, "B"⟩, ⟨.NUMBER, "2"⟩, ⟨.OPERATOR, "^"⟩, ⟨.OPERATOR, "-"⟩] ∧
    ∀ (stack out : List Token), rpnOpLoop ⟨.OPERATOR, "^"⟩ stack out = (stack, out) := by
  refine ⟨by decide, by decide, ?_⟩
  intro stack out
  cases stack with
  | nil => rfl
  | cons s ss => simp [rpnOpLoop]

/-- C3 counterexample: applying the postfix transpose with an empty
operand stack (expression consisting of a single `'`) fails with
TransposeRequiresMatrix, not with MissingOperand as the claim states. -/
theorem C3_counterexample :
    evaluateExpression quoteStr [] = .error .transposeRequiresMatrix ∧
    evaluateExpression quoteStr [] ≠ .error .missingOperand :=
  ⟨rfl, by decide⟩

/-- C3 amended: whenever the evaluator reaches a `'` token with an empty
operand stack, it fails with TransposeRequiresMatrix — the guard
`if (!a || typeof a === 'number')` treats the undefined pop exactly like
a scalar operand. -/
theorem C3_empty_stack_transpose_error (map : List (String × Matrix)) (ts : List Token)
    (trace : List Matrix) (fresh : Nat) :
    evalRPN map (⟨.OPERATOR, quoteStr⟩ :: ts) [] trace fresh =
      .error .transposeRequiresMatrix := rfl

/-- C5: for every scalar `s` and matrix `M`, `+` and `-` on the mixed
pairs (s, M) and (M, s) fail with ScalarMatrixAdditionUnsupported, while
`*` on either mixed pair succeeds with the elementwise scalar product of
`M` by `s`, each cell rounded to 4 decimal places. -/
theorem C5_scalar_matrix_dispatch (s : ℚ) (M : Matrix) (fresh : Nat) :
    applyBinary "+" (.num s) (.mat M) fresh = .error .scalarMatrixAdditionUnsupported ∧
    applyBinary "+" (.mat M) (.num s) fresh = .error .scalarMatrixAdditionUnsupported ∧
    applyBinary "-" (.num s) (.mat M) fresh = .error .scalarMatrixAdditionUnsupported ∧
    applyBinary "-" (.mat M) (.num s) fresh = .error .scalarMatrixAdditionUnsupported ∧
    applyBinary "*" (.num s) (.mat M) fresh =
      .ok (.mat (scalarOperation M s .SCALAR_MUL fresh).1, fresh + 1) ∧
    applyBinary "*" (.mat M) (.num s) fresh =
      .ok (.mat (scalarOperation M s .SCALAR_MUL fresh).1, fresh + 1) ∧
    (scalarOperation M s .SCALAR_MUL fresh).1.data =
      M.data.map (fun row => row.map (fun val => round4 (val * s))) :=
  ⟨rfl, rfl, rfl, rfl, rfl, rfl, rfl⟩

def c6A : Matrix := ⟨1, "A", 2, 2, [[1, 2], [3, 4]], none⟩

def c6B : Matrix := ⟨2, "B", 2, 2, [[5, 6], [7, 8]], none⟩

/-- C6: with A = [[1,2],[3,4]] and B = [[5,6],[7,8]], evaluating `A+B`
succeeds with a trace of length exactly 1 whose single element carries
the elementwise sum [[6,8],[10,12]]. -/
theorem C6_add_trace :
    ∃ r : Matrix, evaluateExpression "A+B" [c6A, c6B] = .ok [r] ∧
      r.data = [[6, 8], [10, 12]] := by
  refine ⟨(addMatrices [c6A, c6B] 3).1, rfl, ?_⟩
  show (List.range 2).map (fun i => (List.range 2).map (fun j =>
    [c6A, c6B].foldl (fun s m => s + getCell m.data i j) 0)) = [[6, 8], [10, 12]]
  simp only [List.range_succ, List.range_zero, List.nil_append, List.cons_append,
    List.map_cons, List.map_nil, List.foldl_cons, List.foldl_nil, c6A, c6B, getCell,
    List.getD_cons_zero, List.getD_cons_succ]
  norm_num

def c10A : Matrix := ⟨4, "A", 2, 2, [[1, 0], [0, 1]], none⟩

/-- C10: unary minus is unsupported — an expression consisting of `-`
followed by a known identifier parses `-` as a binary operator and fails
with MissingOperand, because only one operand is on the stack. -/
theorem C10_unary_minus (ms : List Matrix) (expr ident : String) (m : Matrix)
    (h1 : jsTrim expr ≠ "")
    (h2 : tokenize expr = [⟨.OPERATOR, "-"⟩, ⟨.IDENTIFIER, ident⟩])
    (h3 : mapLookup (buildMatrixMap ms) (jsToUpper ident) = some m) :
    evaluateExpression expr ms = .error .missingOperand := by
  have hq : ¬ (("-" : String) = quoteStr) := by decide
  have key : evalRPN (buildMatrixMap ms) [⟨.IDENTIFIER, ident⟩, ⟨.OPERATOR, "-"⟩]
      [] [] (freshStart ms) = .error .missingOperand := by
    simp only [evalRPN, h3, if_neg hq]
  unfold evaluateExpression
  rw [if_neg h1, h2]
  simp only [toRPN, toRPNAux, rpnOpLoop, List.tail, List.nil_append, List.cons_append]
  rw [key]

def matrizA : Matrix := ⟨9, "Matriz A", 2, 2, [[1, 2], [3, 4]], none⟩

def matrizBlank : Matrix := ⟨5, "Matriz ", 1, 1, [[0]], none⟩

/-- C4 counterexample: the matrix named `Matriz ` matches the
case-insensitive `MATRIZ ` prefix and its uppercased, trimmed remainder
is the empty string, yet no registration under that remainder exists —
the claim's unconditional alias registration fails for it. -/
theorem C4_counterexample :
    jsStartsWith (jsToUpper matrizBlank.name) "MATRIZ " = true ∧
    jsToUpper (jsTrim (jsDrop matrizBlank.name 7)) = "" ∧
    mapLookup (buildMatrixMap [matrizBlank]) "" = none := by decide

/-- C4 amended: each matrix is registered under its uppercased full
name; a name with the case-insensitive `MATRIZ ` prefix is additionally
registered under the uppercased, whitespace-trimmed remainder — provided
that remainder is nonempty — overwriting any existing entry; a matrix is
registered under its positional letter only when that letter is not
already registered, and an already-registered letter leaves the map
unchanged; and identifier lookup uppercases first, so `Matriz A` is
resolvable through the identifier `a` or `A`. -/
theorem C4_resolver_rules :
    (∀ (acc : List (String × Matrix)) (m : Matrix),
      mapLookup (registerName acc m) (jsToUpper m.name) = some m) ∧
    (∀ (acc : List (String × Matrix)) (m : Matrix),
      jsStartsWith (jsToUpper m.name) "MATRIZ " = true →
      jsToUpper (jsTrim (jsDrop m.name 7)) ≠ "" →
      mapLookup (registerAlias acc m) (jsToUpper (jsTrim (jsDrop m.name 7))) = some m) ∧
    (∀ (acc : List (String × Matrix)) (m : Matrix) (idx : Nat),
      (mapLookup acc (indexLetter idx) = none →
        mapLookup (registerLetter acc m idx) (indexLetter idx) = some m) ∧
      (mapLookup acc (indexLetter idx) ≠ none → registerLetter acc m idx = acc)) ∧
    evaluateExpression "a" [matrizA] = .ok [] ∧
    evaluateExpression "A" [matrizA] = .ok [] := by
  refine ⟨?_, ?_, ?_, rfl, rfl⟩
  · intro acc m
    exact mapLookup_mapInsert_self acc (jsToUpper m.name) m
  · intro acc m hstart hne
    unfold registerAlias
    rw [if_pos hstart]
    dsimp only
    rw [if_pos hne]
    exact mapLookup_mapInsert_self acc _ m
  · intro acc m idx
    constructor
    · intro hnone
      unfold registerLetter
      rw [hnone]
      simp only [Option.isNone_none, if_pos]
      exact mapLookup_mapInsert_self acc _ m
    · intro hsome
      unfold registerLetter
      cases hl : mapLookup acc (indexLetter idx) with
      | none => exact absurd hl hsome
      | some x => simp only [Option.isNone_some, Bool.false_eq_true, if_neg, not_false_iff]

/-- C4 witness: the three resolver rules applied at concrete inputs —
registering `Matriz A` from an empty map, its alias `A`, the positional
letter on an empty map, and the no-overwrite branch on a map where `A`
is already taken. -/
theorem C4_resolver_rules_witness :
    mapLookup (registerName [] matrizA) (jsToUpper matrizA.name) = some matrizA ∧
    mapLookup (registerAlias [] matrizA) "A" = some matrizA ∧
    mapLookup (registerLetter [] matrizA 0) (indexLetter 0) = some matrizA ∧
    registerLetter (buildMatrixMap [matrizA]) matrizBlank 0 = buildMatrixMap [matrizA] := by
  refine ⟨C4_resolver_rules.1 [] matrizA, ?_, ?_, ?_⟩
  · have h := C4_resolver_rules.2.1 [] matrizA (by decide) (by decide)
    exact h
  · exact (C4_resolver_rules.2.2.1 [] matrizA 0).1 (by decide)
  · exact (C4_resolver_rules.2.2.1 (buildMatrixMap [matrizA]) matrizBlank 0).2 (by decide)

/-- C10 witness at the expression `-A` with one identity input matrix. -/
theorem C10_unary_minus_witness :
    jsTrim "-A" ≠ "" ∧
    tokenize "-A" = [⟨.OPERATOR, "-"⟩, ⟨.IDENTIFIER, "A"⟩] ∧
    mapLookup (buildMatrixMap [c10A]) (jsToUpper "A") = some c10A ∧
    evaluateExpression "-A" [c10A] = .error .missingOperand :=
  ⟨by decide, by decide, by decide,
    C10_unary_minus [c10A] "-A" "A" c10A (by decide) (by decide) (by decide)⟩

/-- C7: for every matrix `A` satisfying the shape invariant, evaluating
`A''` succeeds (with the two computed transposes traced in order) and the
final matrix's data grid equals `A`'s data cell for cell — the exact
round-trip law, with no rounding performed by transpose. -/
theorem C7_double_transpose (A : Matrix)
    (h1 : A.data.length = A.rows) (h2 : ∀ row ∈ A.data, row.length = A.cols) :
    ∃ t1 t2 : Matrix,
      evaluateExpression ("A" ++ quoteStr ++ quoteStr) [A] = .ok [t1, t2] ∧
      t2.data = A.data := by
  have hf : freshStart [A] = A.id + 1 := freshStart_single A
  have hid1 : isInputId (buildMatrixMap [A]) (transposeMatrix A (A.id + 1)).1 = false := by
    apply isInputId_single_false
    show A.id ≠ A.id + 1
    omega
  have hid2 : isInputId (buildMatrixMap [A])
      (transposeMatrix (transposeMatrix A (A.id + 1)).1 (A.id + 2)).1 = false := by
    apply isInputId_single_false
    show A.id ≠ A.id + 2
    omega
  refine ⟨(transposeMatrix A (A.id + 1)).1,
    (transposeMatrix (transposeMatrix A (A.id + 1)).1 (A.id + 2)).1, ?_, ?_⟩
  · unfold evaluateExpression
    rw [if_neg (by decide : ¬(jsTrim ("A" ++ quoteStr ++ quoteStr) = ""))]
    rw [show toRPN (tokenize ("A" ++ quoteStr ++ quoteStr)) =
      [⟨.IDENTIFIER, "A"⟩, ⟨.OPERATOR, quoteStr⟩, ⟨.OPERATOR, quoteStr⟩] from by decide]
    rw [hf]
    dsimp only
    rw [evalRPN_identifier (buildMatrixMap [A]) _ [] [] (A.id + 1) "A" A
      (mapLookup_buildMatrixMap_single A)]
    rw [evalRPN_transpose_step, pushResult_not_input _ _ _ _ hid1]
    rw [evalRPN_transpose_step, pushResult_not_input _ _ _ _ hid2]
    rfl
  · exact transpose_transpose_data A (A.id + 1) (A.id + 2) h1 h2

def c1A : Matrix := ⟨6, "A", 2, 2, [[1, 2], [3, 4]], none⟩

/-- C1 counterexample: for the square matrix `A = [[1,2],[3,4]]`,
evaluating `A^3` returns a trace of length 1, not 2 — `powerMatrix`
computes the intermediate square internally and returns only the final
power, so only one matrix is ever pushed and traced. -/
theorem C1_counterexample :
    (evaluateExpression "A^3" [c1A]).map List.length = .ok 1 ∧
    (evaluateExpression "A^3" [c1A]).map List.length ≠ .ok 2 :=
  ⟨rfl, by decide⟩

/-- C1 amended: for every square input matrix `A`, evaluating `A^3`
returns a trace of length exactly 1, containing only the final matrix
`A^3`, whose data is computed by the two sequential multiplications
`A·A` then `(A·A)·A`. -/
theorem C1_power_trace (A : Matrix) (h : A.rows = A.cols) :
    ∃ p : Matrix,
      evaluateExpression "A^3" [A] = .ok [p] ∧
      p.data =
        (multiplyTwoMatrices (multiplyTwoMatrices A A (A.id + 1)).1 A (A.id + 2)).1.data := by
  have hf : freshStart [A] = A.id + 1 := freshStart_single A
  have hq3 : parseNum "3" = ((3 : ℕ) : ℚ) := rfl
  have hcond : ¬((parseNum "3").den ≠ 1 ∨ parseNum "3" < 1) := by
    push_neg
    exact ⟨rfl, by rw [hq3]; norm_num⟩
  have hne1 : ¬(parseNum "3" = 1) := by rw [hq3]; norm_num
  have hpow : powerMatrix A (parseNum "3") (A.id + 1) =
      .ok ({ (powerLoop A 2 1 A [] (A.id + 1)).1 with
             name := A.name ++ "^" ++ ratStr (parseNum "3")
             id := (powerLoop A 2 1 A [] (A.id + 1)).2.2
             steps := some (powerLoop A 2 1 A [] (A.id + 1)).2.1 },
           (powerLoop A 2 1 A [] (A.id + 1)).2.2 + 1) := by
    unfold powerMatrix
    rw [if_neg (by simp [h] : ¬(A.rows ≠ A.cols)), if_neg hcond, if_neg hne1]
    rfl
  have happ : applyBinary "^" (.mat A) (.num (parseNum "3")) (A.id + 1) =
      .ok (.mat { (powerLoop A 2 1 A [] (A.id + 1)).1 with
             name := A.name ++ "^" ++ ratStr (parseNum "3")
             id := (powerLoop A 2 1 A [] (A.id + 1)).2.2
             steps := some (powerLoop A 2 1 A [] (A.id + 1)).2.1 },
           (powerLoop A 2 1 A [] (A.id + 1)).2.2 + 1) := by
    show (powerMatrix A (parseNum "3") (A.id + 1)).map
      (fun r => (Operand.mat r.1, r.2)) = _
    rw [hpow]
    rfl
  have hid : isInputId (buildMatrixMap [A])
      { (powerLoop A 2 1 A [] (A.id + 1)).1 with
        name := A.name ++ "^" ++ ratStr (parseNum "3")
        id := (powerLoop A 2 1 A [] (A.id + 1)).2.2
        steps := some (powerLoop A 2 1 A [] (A.id + 1)).2.1 } = false := by
    apply isInputId_single_false
    show A.id ≠ A.id + 3
    omega
  refine ⟨{ (powerLoop A 2 1 A [] (A.id + 1)).1 with
             name := A.name ++ "^" ++ ratStr (parseNum "3")
             id := (powerLoop A 2 1 A [] (A.id + 1)).2.2
             steps := some (powerLoop A 2 1 A [] (A.id + 1)).2.1 }, ?_, rfl⟩
  unfold evaluateExpression
  rw [if_neg (by decide : ¬(jsTrim "A^3" = ""))]
  rw [show toRPN (tokenize "A^3") =
    [⟨.IDENTIFIER, "A"⟩, ⟨.NUMBER, "3"⟩, ⟨.OPERATOR, "^"⟩] from by decide]
  rw [hf]
  dsimp only
  rw [evalRPN_identifier (buildMatrixMap [A]) _ [] [] (A.id + 1) "A" A
    (mapLookup_buildMatrixMap_single A)]
  rw [evalRPN_number]
  rw [evalRPN_binary_ok (buildMatrixMap [A]) _ _ _ "^" (.mat A) (.num (parseNum "3")) []
    _ (by decide) happ]
  rw [pushResult_not_input _ _ _ _ hid]
  rfl

/-- C1 witness: the amended power-trace theorem applied at
`A = [[1,2],[3,4]]`. -/
theorem C1_power_trace_witness :
    c1A.rows = c1A.cols ∧
    (∃ p : Matrix,
      evaluateExpression "A^3" [c1A] = .ok [p] ∧
      p.data =
        (multiplyTwoMatrices (multiplyTwoMatrices c1A c1A (c1A.id + 1)).1 c1A
          (c1A.id + 2)).1.data) :=
  ⟨rfl, C1_power_trace c1A rfl⟩

def c7A : Matrix := ⟨3, "A", 2, 3, [[1, 2, 5], [3, 4, 6]], none⟩

/-- C7 witness at the rectangular matrix `A = [[1,2,5],[3,4,6]]`. -/
theorem C7_double_transpose_witness :
    (c7A.data.length = c7A.rows ∧ ∀ row ∈ c7A.data, row.length = c7A.cols) ∧
    (∃ t1 t2 : Matrix,
      evaluateExpression ("A" ++ quoteStr ++ quoteStr) [c7A] = .ok [t1, t2] ∧
      t2.data = c7A.data) :=
  ⟨⟨by decide, by decide⟩,
    C7_double_transpose c7A (by decide) (by decide)⟩

/-! The shape invariant (data has exactly `rows` rows of exactly `cols`
entries) and its preservation by every primitive. -/

/-- The §3 shape invariant as a boolean check. -/
def WFb (m : Matrix) : Bool :=
  (m.data.length == m.rows) && m.data.all (fun row => row.length == m.cols)

/-- The invariant lifted to stack operands (scalars are trivially fine). -/
def opWF : Operand → Bool
  | .mat m => WFb m
  | .num _ => true

theorem WFb_iff (m : Matrix) : WFb m = true ↔
    (m.data.length = m.rows ∧ ∀ row ∈ m.data, row.length = m.cols) := by
  simp [WFb, List.all_eq_true]

theorem WFb_addMatrices (ms : List Matrix) (fresh : Nat) :
    WFb (addMatrices ms fresh).1 = true := by
  rw [WFb_iff]
  constructor
  · simp [addMatrices]
  · intro row hrow
    simp only [addMatrices, List.mem_map, List.mem_range] at hrow
    obtain ⟨i, _, rfl⟩ := hrow
    simp [addMatrices]

theorem WFb_subtractMatrices (ms : List Matrix) (fresh : Nat) :
    WFb (subtractMatrices ms fresh).1 = true := by
  rw [WFb_iff]
  constructor
  · simp [subtractMatrices]
  · intro row hrow
    simp only [subtractMatrices, List.mem_map, List.mem_range] at hrow
    obtain ⟨i, _, rfl⟩ := hrow
    simp [subtractMatrices]

theorem WFb_multiplyTwoMatrices (A B : Matrix) (fresh : Nat) :
    WFb (multiplyTwoMatrices A B fresh).1 = true := by
  rw [WFb_iff]
  constructor
  · simp [multiplyTwoMatrices]
  · intro row hrow
    simp only [multiplyTwoMatrices, List.mem_map, List.mem_range] at hrow
    obtain ⟨i, _, rfl⟩ := hrow
    simp [multiplyTwoMatrices]

theorem WFb_transposeMatrix (A : Matrix) (fresh : Nat) :
    WFb (transposeMatrix A fresh).1 = true := by
  rw [WFb_iff]
  constructor
  · simp [transposeMatrix]
  · intro row hrow
    simp only [transposeMatrix, List.mem_map, List.mem_range] at hrow
    obtain ⟨i, _, rfl⟩ := hrow
    simp [transposeMatrix]

theorem scalarOperation_data_shape (m : Matrix) (s : ℚ) (t : OperationType)
    (fresh : Nat) : ∃ g : ℚ → ℚ,
      (scalarOperation m s t fresh).1.data = m.data.map (fun row => row.map g) :=
  ⟨_, rfl⟩

theorem scalarOperation_rows (m : Matrix) (s : ℚ) (t : OperationType) (fresh : Nat) :
    (scalarOperation m s t fresh).1.rows = m.rows := rfl

theorem scalarOperation_cols (m : Matrix) (s : ℚ) (t : OperationType) (fresh : Nat) :
    (scalarOperation m s t fresh).1.cols = m.cols := rfl

theorem WFb_scalarOperation (m : Matrix) (s : ℚ) (t : OperationType) (fresh : Nat)
    (h : WFb m = true) : WFb (scalarOperation m s t fresh).1 = true := by
  rw [WFb_iff] at h ⊢
  obtain ⟨h1, h2⟩ := h
  obtain ⟨g, hg⟩ := scalarOperation_data_shape m s t fresh
  rw [hg, scalarOperation_rows, scalarOperation_cols]
  constructor
  · rw [List.length_map]
    exact h1
  · intro row hrow
    rw [List.mem_map] at hrow
    obtain ⟨r0, hr0, rfl⟩ := hrow
    rw [List.length_map]
    exact h2 r0 hr0

theorem WFb_powerLoop (base : Matrix) :
    ∀ (count i : Nat) (res : Matrix) (steps : List String) (fresh : Nat),
      WFb res = true → WFb (powerLoop base count i res steps fresh).1 = true := by
  intro count
  induction count with
  | zero => intro i res steps fresh h; exact h
  | succ n ih =>
    intro i res steps fresh _
    exact ih (i + 1) _ _ _ (WFb_multiplyTwoMatrices res base fresh)

theorem WFb_powerMatrix (m : Matrix) (q : ℚ) (fresh : Nat) (r : Matrix × Nat)
    (hm : WFb m = true) (h : powerMatrix m q fresh = .ok r) : WFb r.1 = true := by
  unfold powerMatrix at h
  split at h
  · exact absurd h (by simp)
  · split at h
    · exact absurd h (by simp)
    · split at h
      · rw [Except.ok.injEq] at h
        rw [← h]
        exact hm
      · rw [Except.ok.injEq] at h
        rw [← h]
        exact WFb_powerLoop m _ _ _ _ _ hm

theorem opWF_genericAdd (a b : Operand) (fresh : Nat) (r : Operand × Nat)
    (h : genericAdd a b fresh = .ok r) : opWF r.1 = true := by
  cases a with
  | num x =>
    cases b with
    | num y =>
      rw [genericAdd, Except.ok.injEq] at h
      rw [← h]
      rfl
    | mat mB => exact absurd h (by simp [genericAdd])
  | mat mA =>
    cases b with
    | num y => exact absurd h (by simp [genericAdd])
    | mat mB =>
      rw [genericAdd] at h
      split at h
      · exact absurd h (by simp)
      · rw [Except.ok.injEq] at h
        rw [← h]
        exact WFb_addMatrices [mA, mB] fresh

theorem opWF_genericSubtract (a b : Operand) (fresh : Nat) (r : Operand × Nat)
    (h : genericSubtract a b fresh = .ok r) : opWF r.1 = true := by
  cases a with
  | num x =>
    cases b with
    | num y =>
      rw [genericSubtract, Except.ok.injEq] at h
      rw [← h]
      rfl
    | mat mB => exact absurd h (by simp [genericSubtract])
  | mat mA =>
    cases b with
    | num y => exact absurd h (by simp [genericSubtract])
    | mat mB =>
      rw [genericSubtract] at h
      split at h
      · exact absurd h (by simp)
      · rw [Except.ok.injEq] at h
        rw [← h]
        exact WFb_subtractMatrices [mA, mB] fresh

theorem opWF_genericMultiply (a b : Operand) (fresh : Nat) (r : Operand × Nat)
    (ha : opWF a = true) (hb : opWF b = true)
    (h : genericMultiply a b fresh = .ok r) : opWF r.1 = true := by
  cases a with
  | num x =>
    cases b with
    | num y =>
      rw [genericMultiply, Except.ok.injEq] at h
      rw [← h]
      rfl
    | mat mB =>
      rw [genericMultiply, Except.ok.injEq] at h
      rw [← h]
      exact WFb_scalarOperation mB x .SCALAR_MUL fresh hb
  | mat mA =>
    cases b with
    | num y =>
      rw [genericMultiply, Except.ok.injEq] at h
      rw [← h]
      exact WFb_scalarOperation mA y .SCALAR_MUL fresh ha
    | mat mB =>
      rw [genericMultiply] at h
      split at h
      · exact absurd h (by simp)
      · rw [Except.ok.injEq] at h
        rw [← h]
        exact WFb_multiplyTwoMatrices mA mB fresh

theorem opWF_applyBinary (op : String) (a b : Operand) (fresh : Nat) (r : Operand × Nat)
    (ha : opWF a = true) (hb : opWF b = true)
    (h : applyBinary op a b fresh = .ok r) : opWF r.1 = true := by
  unfold applyBinary at h
  split_ifs at h
  · exact opWF_genericAdd a b fresh r h
  · exact opWF_genericSubtract a b fresh r h
  · exact opWF_genericMultiply a b fresh r ha hb h
  · cases a with
    | num x => exact absurd h (by cases b <;> simp)
    | mat m =>
      cases b with
      | mat m2 => exact absurd h (by simp)
      | num q =>
        simp only at h
        cases hp : powerMatrix m q fresh with
        | error e => rw [hp] at h; exact absurd h (by simp [Except.map])
        | ok pr =>
          rw [hp] at h
          simp only [Except.map] at h
          rw [Except.ok.injEq] at h
          rw [← h]
          exact WFb_powerMatrix m q fresh pr ha hp

theorem pushResult_WF (map : List (String × Matrix)) (val : Operand)
    (stack : List Operand) (trace : List Matrix)
    (hval : opWF val = true) (hs : ∀ o ∈ stack, opWF o = true)
    (ht : ∀ m ∈ trace, WFb m = true) :
    (∀ o ∈ (pushResult map val stack trace).1, opWF o = true) ∧
    (∀ m ∈ (pushResult map val stack trace).2, WFb m = true) := by
  cases val with
  | num q =>
    exact ⟨by
      intro o ho
      rcases List.mem_cons.mp ho with h1 | h1
      · rw [h1]; rfl
      · exact hs o h1, ht⟩
  | mat m =>
    constructor
    · intro o ho
      simp only [pushResult] at ho
      rcases List.mem_cons.mp ho with h1 | h1
      · rw [h1]; exact hval
      · exact hs o h1
    · intro x hx
      simp only [pushResult] at hx
      split at hx
      · exact ht x hx
      · rcases List.mem_append.mp hx with h1 | h1
        · exact ht x h1
        · rw [List.mem_singleton.mp h1]
          exact hval

theorem evalRPN_WF (map : List (String × Matrix))
    (hmap : ∀ p ∈ map, WFb p.2 = true) :
    ∀ (ts : List Token) (stack : List Operand) (trace : List Matrix) (fresh : Nat)
      (st2 : List Operand × List Matrix × Nat),
      (∀ o ∈ stack, opWF o = true) → (∀ m ∈ trace, WFb m = true) →
      evalRPN map ts stack trace fresh = .ok st2 →
      (∀ o ∈ st2.1, opWF o = true) ∧ (∀ m ∈ st2.2.1, WFb m = true) := by
  intro ts
  induction ts with
  | nil =>
    intro stack trace fresh st2 hs ht h
    rw [evalRPN, Except.ok.injEq] at h
    rw [← h]
    exact ⟨hs, ht⟩
  | cons t ts ih =>
    intro stack trace fresh st2 hs ht h
    obtain ⟨ty, v⟩ := t
    cases ty with
    | NUMBER =>
      rw [evalRPN_number] at h
      refine ih _ _ _ _ ?_ ht h
      intro o ho
      rcases List.mem_cons.mp ho with h1 | h1
      · rw [h1]; rfl
      · exact hs o h1
    | IDENTIFIER =>
      simp only [evalRPN] at h
      cases hl : mapLookup map (jsToUpper v) with
      | none => rw [hl] at h; exact absurd h (by simp)
      | some m =>
        rw [hl] at h
        refine ih _ _ _ _ ?_ ht h
        intro o ho
        rcases List.mem_cons.mp ho with h1 | h1
        · rw [h1]
          obtain ⟨p, hp, hpv⟩ := mapLookup_mem map (jsToUpper v) m hl
          show WFb m = true
          rw [← hpv]
          exact hmap p hp
        · exact hs o h1
    | OPERATOR =>
      simp only [evalRPN] at h
      split_ifs at h with hq
      · cases stack with
        | nil => exact absurd h (by simp)
        | cons top rest =>
          cases top with
          | num q => exact absurd h (by simp)
          | mat a =>
            simp only at h
            have hrest : ∀ o ∈ rest, opWF o = true := fun o ho =>
              hs o (List.mem_cons_of_mem _ ho)
            have hp := pushResult_WF map (.mat (transposeMatrix a fresh).1) rest trace
              (WFb_transposeMatrix a fresh) hrest ht
            exact ih _ _ _ _ hp.1 hp.2 h
      · cases stack with
        | nil => exact absurd h (by simp)
        | cons b rest0 =>
          cases rest0 with
          | nil => exact absurd h (by simp)
          | cons a rest =>
            simp only at h
            cases happ : applyBinary v a b fresh with
            | error e => rw [happ] at h; exact absurd h (by simp)
            | ok r =>
              rw [happ] at h
              have hb : opWF b = true := hs b (List.mem_cons_self b _)
              have ha : opWF a = true :=
                hs a (List.mem_cons_of_mem _ (List.mem_cons_self a _))
              have hrest : ∀ o ∈ rest, opWF o = true := fun o ho =>
                hs o (List.mem_cons_of_mem _ (List.mem_cons_of_mem _ ho))
              have hr := opWF_applyBinary v a b fresh r ha hb happ
              have hp := pushResult_WF map r.1 rest trace hr hrest ht
              exact ih _ _ _ _ hp.1 hp.2 h
    | LPAREN => exact ih _ _ _ _ hs ht h
    | RPAREN => exact ih _ _ _ _ hs ht h
    | COMMA => exact ih _ _ _ _ hs ht h

/-- C9: for every successful evaluation whose input matrices all satisfy
the shape invariant, every matrix of the returned trace satisfies it as
well: its data has exactly `rows` rows, each of exactly `cols` entries. -/
theorem C9_shape_invariant (expr : String) (ms : List Matrix) (tr : List Matrix)
    (hin : ms.all WFb = true) (h : evaluateExpression expr ms = .ok tr) :
    tr.all WFb = true := by
  have hmap : ∀ p ∈ buildMatrixMap ms, WFb p.2 = true :=
    buildMatrixMap_forall (P := fun m => WFb m = true) ms
      (fun m hm => (List.all_eq_true.mp hin) m hm)
  unfold evaluateExpression at h
  split_ifs at h
  dsimp only at h
  cases heval : evalRPN (buildMatrixMap ms) (toRPN (tokenize expr)) [] []
      (freshStart ms) with
  | error e => rw [heval] at h; exact absurd h (by simp)
  | ok st2 =>
    rw [heval] at h
    obtain ⟨stack, trace, f⟩ := st2
    have hWF := evalRPN_WF (buildMatrixMap ms) hmap (toRPN (tokenize expr)) [] []
      (freshStart ms) (stack, trace, f) (by intro o ho; simp at ho)
      (by intro m hm; simp at hm) heval
    simp only at h
    cases stack with
    | nil => exact absurd h (by simp)
    | cons top rest =>
      cases rest with
      | cons x y => exact absurd h (by cases top <;> simp)
      | nil =>
        cases top with
        | num q => exact absurd h (by simp)
        | mat m =>
          rw [Except.ok.injEq] at h
          rw [← h, List.all_eq_true]
          exact hWF.2

def c9A : Matrix := ⟨11, "A", 2, 2, [[1, 2], [3, 4]], none⟩

def c9B : Matrix := ⟨12, "B", 2, 2, [[2, 1], [0, 5]], none⟩

/-- C9 witness: the invariant theorem applied to `A+B` on two concrete
well-formed inputs. -/
theorem C9_shape_invariant_witness :
    [c9A, c9B].all WFb = true ∧
    ((evaluateExpression "A+B" [c9A, c9B]).toOption.getD []).all WFb = true :=
  ⟨by decide,
    C9_shape_invariant "A+B" [c9A, c9B] _ (by decide) rfl⟩

end Sim
